import Mathlib

/-!
# Verification of the TOPS pallet parser

A shallow embedding, in Lean 4, of `src/tops_parser/parser.py` from the
`tops-pallet-parser` repository, together with theorems settling the frozen
claims about its specification.

Python strings are modelled as `List Char` (`Str`).  The Python builtins the
parser uses (`str.strip`, `str.split`, `str.startswith`, `int`, `float`,
`os.path.basename`) are modelled below; numeric values are modelled exactly
as rationals (`ℚ`).  The model covers finite decimal literals with optional
sign, fraction and exponent; Python's `inf`/`nan` spellings, underscore digit
separators and non-ASCII digits are outside the model (none occur in the TOPS
format, whose numeric fields are finite decimals).  The filesystem is
modelled as a partial map from paths to the list of lines of the file.
-/

/-- Decidable equality for `Except`, so that concrete runs of the parser can
be checked by `decide`. -/
def exceptDecEq {ε α : Type} [DecidableEq ε] [DecidableEq α] :
    (a b : Except ε α) → Decidable (a = b)
  | .error e, .error f =>
    if h : e = f then isTrue (congrArg Except.error h)
    else isFalse (fun c => h (Except.error.inj c))
  | .error _, .ok _ => isFalse (fun c => Except.noConfusion c)
  | .ok _, .error _ => isFalse (fun c => Except.noConfusion c)
  | .ok a, .ok b =>
    if h : a = b then isTrue (congrArg Except.ok h)
    else isFalse (fun c => h (Except.ok.inj c))

instance {ε α : Type} [DecidableEq ε] [DecidableEq α] : DecidableEq (Except ε α) :=
  exceptDecEq

namespace TopsPallet

/-- Python strings, modelled as lists of characters. -/
abbrev Str := List Char

/-- Characters Python's `str.strip()` removes by default (ASCII whitespace). -/
def wsChars : List Char := [' ', '\t', '\n', '\r', '\x0b', '\x0c']

/-- `dropWhileMem cs s` drops from the front of `s` every leading character
that belongs to `cs`. -/
def dropWhileMem (cs : List Char) : Str → Str
  | [] => []
  | c :: t => if c ∈ cs then dropWhileMem cs t else c :: t

/-- Model of Python `s.strip(chars)`: remove characters of `cs` from both
ends of `s`. -/
def strip (cs : List Char) (s : Str) : Str :=
  ((dropWhileMem cs ((dropWhileMem cs s).reverse)).reverse)

/-- Model of Python `s.strip()` (no argument): strip whitespace. -/
def pyStrip (s : Str) : Str := strip wsChars s

/-- Model of Python `s.split(sep)` for a single-character separator `c`:
on an empty string it yields `[[]]`, and every occurrence of `c` separates
two (possibly empty) fields. -/
def splitOnChar (c : Char) : Str → List Str
  | [] => [[]]
  | a :: rest =>
    let r := splitOnChar c rest
    if a = c then [] :: r
    else
      match r with
      | h :: t => (a :: h) :: t
      | [] => [[a]]

/-- Model of Python `s.startswith(p)` : `p` is a prefix of `s`. -/
def startsWith : Str → Str → Bool
  | [], _ => true
  | _ :: _, [] => false
  | p :: ps, s :: ss => p = s && startsWith ps ss

/-- Numeric value of a digit string (most significant digit first). -/
def digitsVal (s : Str) : Nat :=
  s.foldl (fun n c => 10 * n + (c.toNat - '0'.toNat)) 0

/-- Parse a non-empty all-ASCII-digit string to a natural number;
`none` otherwise. -/
def parseDigits (s : Str) : Option Nat :=
  if s.isEmpty then none
  else if s.all Char.isDigit then some (digitsVal s) else none

/-- Read an optional leading sign, returning the sign (±1) and the rest. -/
def readSign : Str → Int × Str
  | '+' :: t => (1, t)
  | '-' :: t => (-1, t)
  | t => (1, t)

/-- Model of Python `int(s)` for decimal strings: surrounding whitespace is
ignored, then an optional sign followed by at least one digit. -/
def pyInt (s : Str) : Option Int :=
  let t := strip wsChars s
  let (sg, u) := readSign t
  (parseDigits u).map (fun n => sg * (n : Int))

/-- Split a mantissa at the first `.`; the fractional part is `none` when no
dot occurs. -/
def splitDot : Str → Str × Option Str
  | [] => ([], none)
  | c :: rest =>
    if c = '.' then ([], some rest)
    else
      let (ip, fp) := splitDot rest
      (c :: ip, fp)

/-- Split at the first `e`/`E`; the exponent part is `none` when absent. -/
def splitExp : Str → Str × Option Str
  | [] => ([], none)
  | c :: rest =>
    if c = 'e' ∨ c = 'E' then ([], some rest)
    else
      let (m, ex) := splitExp rest
      (c :: m, ex)

/-- Parse a mantissa `digits`, `digits.digits`, `.digits` or `digits.`
(at least one digit overall) to an exact rational. -/
def parseMantissa (s : Str) : Option ℚ :=
  let (ip, fp?) := splitDot s
  match fp? with
  | none => (parseDigits ip).map (fun n => (n : ℚ))
  | some fp =>
    if (ip.all Char.isDigit && fp.all Char.isDigit) && !(ip.isEmpty && fp.isEmpty)
    then some ((digitsVal ip : ℚ) + (digitsVal fp : ℚ) / (10 : ℚ) ^ fp.length)
    else none

/-- Model of Python `float(s)` for finite decimal literals, as an exact
rational: surrounding whitespace, optional sign, mantissa with optional
fraction, optional `e`/`E` exponent with optional sign. -/
def pyFloat (s : Str) : Option ℚ :=
  let t := strip wsChars s
  let (sg, u) := readSign t
  let (m, ex?) := splitExp u
  match parseMantissa m with
  | none => none
  | some q =>
    match ex? with
    | none => some ((sg : ℚ) * q)
    | some ex =>
      let (esg, ed) := readSign ex
      match parseDigits ed with
      | none => none
      | some n =>
        let p : ℚ := (10 : ℚ) ^ n
        if esg = 1 then some ((sg : ℚ) * q * p) else some ((sg : ℚ) * q / p)

/-- Model of Python `os.path.basename`: the part of the path after the last
`/`. -/
def basename (p : Str) : Str := (splitOnChar '/' p).getLastD []

/-- `pallet_id` as computed at `parser.py:111`:
`os.path.basename(file_path).split(".")[0]`. -/
def palletId (p : Str) : Str := (splitOnChar '.' (basename p)).headD []

/-- The `Box` dataclass of `parser.py` (floats as exact rationals). -/
structure Box where
  layer : Int
  x : ℚ
  y : ℚ
  z : ℚ
  orientation : Int
deriving DecidableEq, Repr

/-- Ship-case metadata record, `parser.py:73-79`. -/
structure ShipCaseRec where
  name : Str
  spec : Str
  length : ℚ
  width : ℚ
  height : ℚ
deriving DecidableEq, Repr

/-- Pallet metadata record, `parser.py:85-90`. -/
structure PalletRec where
  name : Str
  length : ℚ
  width : ℚ
  height : ℚ
deriving DecidableEq, Repr

/-- Value stored under a key of `self.metadata`: the initial empty dict or a
parsed record. -/
inductive MetaVal where
  | emptyRec : MetaVal
  | ship : ShipCaseRec → MetaVal
  | pal : PalletRec → MetaVal
deriving DecidableEq, Repr

/-- Errors `parse` can propagate: `FileNotFoundError` (`parser.py:54`),
and the uncaught `IndexError` / `ValueError` of metadata parsing
(`parser.py:70-91`). -/
inductive Err where
  | fileNotFound : Err
  | indexError : Err
  | valueError : Err
deriving DecidableEq, Repr

/-- Python `parts[i]`: the element when `i` is in range, an `IndexError`
otherwise. -/
def getPart (parts : List Str) (i : Nat) : Except Err Str :=
  if h : i < parts.length then .ok parts[i] else .error .indexError

/-- Python `float(s)` as used on metadata fields: a failed conversion is an
uncaught `ValueError`. -/
def toFloatE (s : Str) : Except Err ℚ :=
  match pyFloat s with
  | some q => .ok q
  | none => .error .valueError

/-- The tag `[Ship Case]`. -/
def tagShip : Str := '[' :: 'S' :: 'h' :: 'i' :: 'p' :: ' ' :: 'C' :: 'a' :: 's' :: 'e' :: ']' :: []

/-- The tag `[Pallet]`. -/
def tagPal : Str := '[' :: 'P' :: 'a' :: 'l' :: 'l' :: 'e' :: 't' :: ']' :: []

/-- The dict key `"ship_case"`. -/
def keyShip : Str := 's' :: 'h' :: 'i' :: 'p' :: '_' :: 'c' :: 'a' :: 's' :: 'e' :: []

/-- The dict key `"pallet"`. -/
def keyPal : Str := 'p' :: 'a' :: 'l' :: 'l' :: 'e' :: 't' :: []

/-- The comma-separated fields of a metadata line,
`parser.py:72` / `parser.py:84`: `line.strip('[]').split(',')`. -/
def metaParts (line : Str) : List Str := splitOnChar ',' (strip ['[', ']'] line)

/-- `parser.py:72-79`: `parts = line.strip('[]').split(',')`, then the field
accesses and conversions in the evaluation order of the dict literal
(`parts[1]`, `parts[2]`, `float(parts[3])`, `float(parts[4])`,
`float(parts[5])`); any `IndexError`/`ValueError` propagates. -/
def parseShipCaseLine (line : Str) : Except Err ShipCaseRec :=
  Except.bind (getPart (metaParts line) 1) (fun p1 =>
  Except.bind (getPart (metaParts line) 2) (fun p2 =>
  Except.bind (getPart (metaParts line) 3) (fun p3 =>
  Except.bind (toFloatE p3) (fun l =>
  Except.bind (getPart (metaParts line) 4) (fun p4 =>
  Except.bind (toFloatE p4) (fun w =>
  Except.bind (getPart (metaParts line) 5) (fun p5 =>
  Except.bind (toFloatE p5) (fun h =>
  .ok ⟨strip ['"'] p1, strip ['"'] p2, l, w, h⟩))))))))

/-- `parser.py:84-90`: pallet metadata, fields `parts[1]`,
`float(parts[2])`, `float(parts[3])`, `float(parts[4])`. -/
def parsePalletLine (line : Str) : Except Err PalletRec :=
  Except.bind (getPart (metaParts line) 1) (fun p1 =>
  Except.bind (getPart (metaParts line) 2) (fun p2 =>
  Except.bind (toFloatE p2) (fun l =>
  Except.bind (getPart (metaParts line) 3) (fun p3 =>
  Except.bind (toFloatE p3) (fun w =>
  Except.bind (getPart (metaParts line) 4) (fun p4 =>
  Except.bind (toFloatE p4) (fun h =>
  .ok ⟨strip ['"'] p1, l, w, h⟩)))))))

/-- The comma-separated fields a box line is split into,
`parser.py:95`: `line.strip(",").split(",")`. -/
def boxParts (line : Str) : List Str := splitOnChar ',' (strip [','] line)

/-- `parser.py:94-108`: a box line yields a `Box` when it has at least 5
fields and the five conversions succeed; otherwise (`ValueError` caught, or
fewer than 5 fields) it yields nothing. -/
def parseBoxLine (line : Str) : Option Box :=
  if 5 ≤ (boxParts line).length then
    (pyInt ((boxParts line).getD 0 [])).bind (fun l =>
    (pyFloat ((boxParts line).getD 1 [])).bind (fun x =>
    (pyFloat ((boxParts line).getD 2 [])).bind (fun y =>
    (pyFloat ((boxParts line).getD 3 [])).bind (fun z =>
    (pyInt ((boxParts line).getD 4 [])).map (fun o => ⟨l, x, y, z, o⟩)))))
  else none

/-- The parser's accumulating state: the `self.metadata` dict (as an
insertion-ordered association list), `self.boxes`, and the `self.layers`
defaultdict (insertion-ordered buckets). -/
structure PState where
  metadata : List (Str × MetaVal)
  boxes : List Box
  layers : List (Int × List Box)
deriving DecidableEq, Repr

/-- The fresh state built at `parser.py:56-61`. -/
def initState : PState :=
  ⟨[(keyShip, .emptyRec), (keyPal, .emptyRec)], [], []⟩

/-- Python dict assignment `d[k] = v`: replace in place when the key is
present, append otherwise. -/
def dictSet : List (Str × MetaVal) → Str → MetaVal → List (Str × MetaVal)
  | [], k, v => [(k, v)]
  | (k', v') :: rest, k, v =>
    if k' = k then (k, v) :: rest else (k', v') :: dictSet rest k v

/-- `self.layers[box.layer].append(box)` on a `defaultdict(list)`: append to
the existing bucket, or create a new bucket at the end. -/
def layersAdd : List (Int × List Box) → Box → List (Int × List Box)
  | [], b => [(b.layer, [b])]
  | (k, bucket) :: rest, b =>
    if k = b.layer then (k, bucket ++ [b]) :: rest
    else (k, bucket) :: layersAdd rest b

/-- One iteration of the loop at `parser.py:64-108`: strip the line, skip it
when blank, dispatch on the metadata tags, otherwise attempt a box parse
(whose failures are swallowed). -/
def processLine (st : PState) (rawLine : Str) : Except Err PState :=
  if pyStrip rawLine = [] then .ok st
  else if startsWith tagShip (pyStrip rawLine) then
    match parseShipCaseLine (pyStrip rawLine) with
    | .error e => .error e
    | .ok r => .ok { st with metadata := dictSet st.metadata keyShip (.ship r) }
  else if startsWith tagPal (pyStrip rawLine) then
    match parsePalletLine (pyStrip rawLine) with
    | .error e => .error e
    | .ok r => .ok { st with metadata := dictSet st.metadata keyPal (.pal r) }
  else
    match parseBoxLine (pyStrip rawLine) with
    | some b => .ok { st with boxes := st.boxes ++ [b], layers := layersAdd st.layers b }
    | none => .ok st

/-- The whole `for line in f` loop: process lines in order, stopping at the
first propagating error. -/
def processLines : PState → List Str → Except Err PState
  | st, [] => .ok st
  | st, l :: ls =>
    match processLine st l with
    | .error e => .error e
    | .ok st' => processLines st' ls

/-- The value returned at `parser.py:110-117`. -/
structure ParseResult where
  pallet_id : Str
  metadata : List (Str × MetaVal)
  boxes : List Box
  layers : List (Int × List Box)
deriving DecidableEq, Repr

/-- A filesystem: maps a path to the file's lines when the file exists. -/
abbrev FS := Str → Option (List Str)

/-- `TopsParser.parse` (`parser.py:46-117`): raise `FileNotFound` when the
path does not exist, otherwise run the line loop on the file's lines and
assemble the result. -/
def parse (fs : FS) (path : Str) : Except Err ParseResult :=
  match fs path with
  | none => .error .fileNotFound
  | some lines =>
    match processLines initState lines with
    | .error e => .error e
    | .ok st => .ok ⟨palletId path, st.metadata, st.boxes, st.layers⟩

/-! ## Further definitions used by the theorems -/

/-- Lookup in the `metadata` association list (first matching key). -/
def lookupKey : List (Str × MetaVal) → Str → Option MetaVal
  | [], _ => none
  | (k', v) :: t, k => if k' = k then some v else lookupKey t k

/-- The stripped `[Ship Case]` lines of a file, in order. -/
def shipLines (lines : List Str) : List Str :=
  lines.filterMap (fun raw =>
    if startsWith tagShip (pyStrip raw) then some (pyStrip raw) else none)

/-- The stripped `[Pallet]` lines of a file, in order. -/
def palLines (lines : List Str) : List Str :=
  lines.filterMap (fun raw =>
    if startsWith tagShip (pyStrip raw) then none
    else if startsWith tagPal (pyStrip raw) then some (pyStrip raw) else none)

/-- The partition invariant connecting `boxes` and `layers`: distinct layer
keys, each bucket is the subsequence of boxes of that layer, every box has a
bucket, and the bucket sizes add up to the number of boxes. -/
def LayersInv (bs : List Box) (ls : List (Int × List Box)) : Prop :=
  (ls.map Prod.fst).Nodup ∧
  (∀ p ∈ ls, p.2 = bs.filter (fun b => b.layer == p.1)) ∧
  (∀ b ∈ bs, b.layer ∈ ls.map Prod.fst) ∧
  bs.length = (ls.map (fun p => p.2.length)).sum

/-- Modelled from the spec: `pallet_id` is "the file's base name with
directory components stripped and everything from the first `.` onward
removed".  Used to compare the spec's wording with `palletId`. -/
def specPalletId (p : Str) : Str := (basename p).takeWhile (fun c => c != '.')

/-- Modelled from the spec (claim C7): "trim a single trailing comma from
the trimmed line (if present)". -/
def trimOneTrailingComma (l : Str) : Str :=
  if l.getLast? = some ',' then l.dropLast else l

/-- Modelled from the spec (claim C7): the fields the spec's wording
predicts for a box line — one trailing comma trimmed, then split. -/
def claimBoxParts (l : Str) : List Str := splitOnChar ',' (trimOneTrailingComma l)

/-- Box parsing as the wording of claim C7 would have it: identical to
`parseBoxLine` except that the fields come from `claimBoxParts`. -/
def claimParseBoxLine (line : Str) : Option Box :=
  if 5 ≤ (claimBoxParts line).length then
    (pyInt ((claimBoxParts line).getD 0 [])).bind (fun l =>
    (pyFloat ((claimBoxParts line).getD 1 [])).bind (fun x =>
    (pyFloat ((claimBoxParts line).getD 2 [])).bind (fun y =>
    (pyFloat ((claimBoxParts line).getD 3 [])).bind (fun z =>
    (pyInt ((claimBoxParts line).getD 4 [])).map (fun o => ⟨l, x, y, z, o⟩)))))
  else none

/-- The lines of the sample file of the spec (§8, property 5). -/
def linesSample : List Str :=
  ["[Ship Case],\"\",\"RSC (FEFCO 0201)\",9.9375,8.0625,5.8125".data,
   "[Pallet],\"CHEP Pallet\",40.0,48.0,5.625".data,
   "1,-15.1875,-19.8750,5.6250,0,".data,
   "1,-5.0625,-19.8750,5.6250,0,".data,
   "2,-15.1875,-19.8750,11.4375,0,".data,
   "2,-5.0625,-19.8750,11.4375,0,".data]

/-- The sample file of the spec, as a one-file filesystem. -/
def fsSample : FS := fun p =>
  if p = "d/test_tops.txt".data then some linesSample else none

/-- The result of parsing the sample file, written out in full. -/
def resSample : ParseResult :=
  ⟨"test_tops".data,
   [(keyShip, .ship ⟨[], "RSC (FEFCO 0201)".data, 159/16, 129/16, 93/16⟩),
    (keyPal, .pal ⟨"CHEP Pallet".data, 40, 48, 45/8⟩)],
   [⟨1, -243/16, -159/8, 45/8, 0⟩, ⟨1, -81/16, -159/8, 45/8, 0⟩,
    ⟨2, -243/16, -159/8, 183/16, 0⟩, ⟨2, -81/16, -159/8, 183/16, 0⟩],
   [(1, [⟨1, -243/16, -159/8, 45/8, 0⟩, ⟨1, -81/16, -159/8, 45/8, 0⟩]),
    (2, [⟨2, -243/16, -159/8, 183/16, 0⟩, ⟨2, -81/16, -159/8, 183/16, 0⟩])]⟩

/-- A one-file filesystem whose box line has layer `0` and orientation `7`:
the parser accepts it unvalidated (claim C4). -/
def fsRange : FS := fun p =>
  if p = "d/range.txt".data then some ["0,1.0,2.0,3.0,7,".data] else none

/-- The result of parsing `fsRange`'s file. -/
def resRange : ParseResult :=
  ⟨"range".data,
   [(keyShip, .emptyRec), (keyPal, .emptyRec)],
   [⟨0, 1, 2, 3, 7⟩],
   [(0, [⟨0, 1, 2, 3, 7⟩])]⟩

/-- Lines of a file with repeated metadata lines interleaved with a box
line (claim C6). -/
def linesRepeat : List Str :=
  ["[Ship Case],\"A\",\"S1\",1,2,3".data,
   "[Pallet],\"P1\",1,2,3".data,
   "1,0,0,0,0,".data,
   "[Ship Case],\"B\",\"S2\",4,5,6".data,
   "[Pallet],\"P2\",7,8,9".data]

/-- A one-file filesystem holding `linesRepeat`. -/
def fsRepeat : FS := fun p =>
  if p = "d/rep.txt".data then some linesRepeat else none

/-- The result of parsing `linesRepeat`: the later metadata lines win. -/
def resRepeat : ParseResult :=
  ⟨"rep".data,
   [(keyShip, .ship ⟨"B".data, "S2".data, 4, 5, 6⟩),
    (keyPal, .pal ⟨"P2".data, 7, 8, 9⟩)],
   [⟨1, 0, 0, 0, 0⟩],
   [(1, [⟨1, 0, 0, 0, 0⟩])]⟩

/-- Whether a line, if it parses as a box, satisfies the spec's range
constraints `layer ≥ 1` and `orientation ∈ {0, 1}`. -/
def boxLineOk (l : Str) : Bool :=
  match parseBoxLine (pyStrip l) with
  | some b => decide (1 ≤ b.layer) && (decide (b.orientation = 0) || decide (b.orientation = 1))
  | none => true

/-! ## Helper lemmas -/

theorem except_bind_ok {ε α β : Type} (a : α) (f : α → Except ε β) :
    Except.bind (Except.ok a) f = f a := rfl

theorem except_bind_error {ε α β : Type} (e : ε) (f : α → Except ε β) :
    Except.bind (Except.error e) (f := f) = Except.error e := rfl

theorem splitOnChar_ne_nil (c : Char) (s : Str) : splitOnChar c s ≠ [] := by
  induction s with
  | nil => simp [splitOnChar]
  | cons a t ih =>
    simp only [splitOnChar]
    split
    · simp
    · match h : splitOnChar c t with
      | [] => exact absurd h ih
      | x :: xs => simp

theorem layersAdd_of_not_mem (ls : List (Int × List Box)) (b : Box)
    (h : b.layer ∉ ls.map Prod.fst) :
    layersAdd ls b = ls ++ [(b.layer, [b])] := by
  induction ls with
  | nil => rfl
  | cons p t ih =>
    obtain ⟨k, bk⟩ := p
    simp only [List.map_cons, List.mem_cons] at h
    push_neg at h
    simp only [layersAdd]
    rw [if_neg (fun hk => h.1 hk.symm), ih h.2]
    simp

theorem layersAdd_keys_of_mem (ls : List (Int × List Box)) (b : Box)
    (h : b.layer ∈ ls.map Prod.fst) :
    (layersAdd ls b).map Prod.fst = ls.map Prod.fst := by
  induction ls with
  | nil => simp at h
  | cons p t ih =>
    obtain ⟨k, bk⟩ := p
    simp only [layersAdd]
    by_cases hk : k = b.layer
    · rw [if_pos hk]; simp [hk]
    · rw [if_neg hk]
      simp only [List.map_cons, List.mem_cons] at h
      rcases h with h | h
      · exact absurd h.symm hk
      · simp [ih h]

theorem layersAdd_mem_of_mem (ls : List (Int × List Box)) (b : Box)
    (hnd : (ls.map Prod.fst).Nodup) :
    ∀ p' ∈ layersAdd ls b,
      (p' ∈ ls ∧ p'.1 ≠ b.layer) ∨
      (∃ bucket, (b.layer, bucket) ∈ ls ∧ p' = (b.layer, bucket ++ [b])) ∨
      (b.layer ∉ ls.map Prod.fst ∧ p' = (b.layer, [b])) := by
  induction ls with
  | nil =>
    intro p' hp'
    simp only [layersAdd, List.mem_singleton] at hp'
    right; right; simp [hp']
  | cons p t ih =>
    obtain ⟨k, bk⟩ := p
    simp only [List.map_cons, List.nodup_cons] at hnd
    intro p' hp'
    simp only [layersAdd] at hp'
    by_cases hk : k = b.layer
    · rw [if_pos hk] at hp'
      rcases List.mem_cons.mp hp' with h | h
      · right; left
        exact ⟨bk, by simp [hk], by simp [h, hk]⟩
      · left
        refine ⟨List.mem_cons_of_mem _ h, fun hcontra => ?_⟩
        have : p'.1 ∈ t.map Prod.fst := List.mem_map_of_mem _ h
        rw [hcontra, ← hk] at this
        exact hnd.1 this
    · rw [if_neg hk] at hp'
      rcases List.mem_cons.mp hp' with h | h
      · left
        exact ⟨by simp [h], by simp [h]; exact fun c => hk c⟩
      · rcases ih hnd.2 p' h with h1 | h2 | h3
        · exact Or.inl ⟨List.mem_cons_of_mem _ h1.1, h1.2⟩
        · obtain ⟨bucket, hb1, hb2⟩ := h2
          exact Or.inr (Or.inl ⟨bucket, List.mem_cons_of_mem _ hb1, hb2⟩)
        · right; right
          refine ⟨?_, h3.2⟩
          simp only [List.map_cons, List.mem_cons]
          push_neg
          exact ⟨fun c => hk c.symm, h3.1⟩

theorem layersAdd_sum (ls : List (Int × List Box)) (b : Box) :
    ((layersAdd ls b).map (fun p => p.2.length)).sum =
      (ls.map (fun p => p.2.length)).sum + 1 := by
  induction ls with
  | nil => simp [layersAdd]
  | cons p t ih =>
    obtain ⟨k, bk⟩ := p
    simp only [layersAdd]
    by_cases hk : k = b.layer
    · rw [if_pos hk]; simp; omega
    · rw [if_neg hk]; simp [ih]; omega

theorem filter_append_layer_eq (bs : List Box) (b : Box) :
    (bs ++ [b]).filter (fun x => x.layer == b.layer) =
      bs.filter (fun x => x.layer == b.layer) ++ [b] := by
  rw [List.filter_append]
  congr 1
  simp

theorem filter_append_layer_ne (bs : List Box) (b : Box) (k : Int)
    (h : k ≠ b.layer) :
    (bs ++ [b]).filter (fun x => x.layer == k) =
      bs.filter (fun x => x.layer == k) := by
  rw [List.filter_append]
  have : [b].filter (fun x => x.layer == k) = [] := by
    simp only [List.filter_cons, List.filter_nil]
    rw [if_neg (by simp; exact fun c => h c.symm)]
  rw [this, List.append_nil]

theorem layersInv_add (bs : List Box) (ls : List (Int × List Box)) (b : Box)
    (h : LayersInv bs ls) : LayersInv (bs ++ [b]) (layersAdd ls b) := by
  obtain ⟨hnd, hbucket, hcomplete, hsum⟩ := h
  by_cases hmem : b.layer ∈ ls.map Prod.fst
  · refine ⟨by rw [layersAdd_keys_of_mem ls b hmem]; exact hnd, ?_, ?_, ?_⟩
    · intro p' hp'
      rcases layersAdd_mem_of_mem ls b hnd p' hp' with h1 | h2 | h3
      · rw [hbucket p' h1.1, filter_append_layer_ne bs b p'.1 h1.2]
      · obtain ⟨bucket, hb1, hb2⟩ := h2
        have hbk := hbucket _ hb1
        simp only at hbk
        subst hb2
        simp only
        rw [filter_append_layer_eq, ← hbk]
      · exact absurd hmem h3.1
    · intro b' hb'
      rw [layersAdd_keys_of_mem ls b hmem]
      rcases List.mem_append.mp hb' with h | h
      · exact hcomplete b' h
      · simp only [List.mem_singleton] at h
        rw [h]; exact hmem
    · rw [layersAdd_sum, List.length_append, ← hsum]; simp
  · rw [layersAdd_of_not_mem ls b hmem]
    refine ⟨?_, ?_, ?_, ?_⟩
    · rw [List.map_append]
      simp only [List.map_cons, List.map_nil]
      refine List.Nodup.append hnd (List.nodup_singleton _) ?_
      intro x hx hy
      simp only [List.mem_singleton] at hy
      exact hmem (hy ▸ hx)
    · intro p' hp'
      rcases List.mem_append.mp hp' with h | h
      · have hne : p'.1 ≠ b.layer := by
          intro c
          exact hmem (c ▸ List.mem_map_of_mem Prod.fst h)
        rw [hbucket p' h, filter_append_layer_ne bs b p'.1 hne]
      · simp only [List.mem_singleton] at h
        subst h
        simp only
        rw [filter_append_layer_eq]
        have : bs.filter (fun x => x.layer == b.layer) = [] := by
          rw [List.filter_eq_nil_iff]
          intro b' hb' hc
          simp only [beq_iff_eq] at hc
          exact hmem (hc ▸ hcomplete b' hb')
        rw [this, List.nil_append]
    · intro b' hb'
      rw [List.map_append]
      rcases List.mem_append.mp hb' with h | h
      · exact List.mem_append_left _ (hcomplete b' h)
      · simp only [List.mem_singleton] at h
        rw [h]; simp
    · rw [List.map_append, List.sum_append, List.length_append, ← hsum]; simp

/-- Case analysis of one successful loop iteration: either the line leaves
`boxes`/`layers` untouched, or it contributes exactly one parsed box. -/
theorem processLine_ok_cases (st st' : PState) (raw : Str)
    (h : processLine st raw = .ok st') :
    (st'.boxes = st.boxes ∧ st'.layers = st.layers) ∨
    (∃ b, parseBoxLine (pyStrip raw) = some b ∧
      st'.boxes = st.boxes ++ [b] ∧ st'.layers = layersAdd st.layers b ∧
      st'.metadata = st.metadata) := by
  unfold processLine at h
  split at h
  · left; cases h; exact ⟨rfl, rfl⟩
  · split at h
    · split at h
      · exact absurd h (by simp)
      · left; cases h; exact ⟨rfl, rfl⟩
    · split at h
      · split at h
        · exact absurd h (by simp)
        · left; cases h; exact ⟨rfl, rfl⟩
      · split at h
        · next b hb =>
          right
          refine ⟨b, hb, ?_⟩
          cases h
          exact ⟨rfl, rfl, rfl⟩
        · left; cases h; exact ⟨rfl, rfl⟩

theorem processLines_layersInv (lines : List Str) :
    ∀ st st', LayersInv st.boxes st.layers →
      processLines st lines = .ok st' → LayersInv st'.boxes st'.layers := by
  induction lines with
  | nil =>
    intro st st' hinv h
    simp only [processLines] at h
    cases h
    exact hinv
  | cons raw rest ih =>
    intro st st' hinv h
    simp only [processLines] at h
    split at h
    · exact absurd h (by simp)
    · next st₁ hstep =>
      refine ih st₁ st' ?_ h
      rcases processLine_ok_cases st st₁ raw hstep with ⟨hb, hl⟩ | ⟨b, _, hb, hl, _⟩
      · rw [hb, hl]; exact hinv
      · rw [hb, hl]; exact layersInv_add _ _ _ hinv

/-- Destructure a successful `parse` run into its file lines and final
state. -/
theorem parse_ok_elim (fs : FS) (path : Str) (r : ParseResult)
    (h : parse fs path = .ok r) :
    ∃ lines st, fs path = some lines ∧ processLines initState lines = .ok st ∧
      r = ⟨palletId path, st.metadata, st.boxes, st.layers⟩ := by
  unfold parse at h
  split at h
  · exact absurd h (by simp)
  · next lines hlines =>
    split at h
    · exact absurd h (by simp)
    · next st hst =>
      cases h
      exact ⟨lines, st, hlines, hst, rfl⟩

/-- C1. For every successful `parse`, `layers` is exactly the partition of
`boxes` by the `layer` field: the layer keys are pairwise distinct, each
bucket is the subsequence of `boxes` with that layer (hence same relative
order), every box's layer has a bucket, and `len(boxes)` is the sum of the
bucket lengths. -/
theorem layers_partition_boxes (fs : FS) (path : Str) (r : ParseResult)
    (h : parse fs path = .ok r) :
    (r.layers.map Prod.fst).Nodup ∧
    (∀ p ∈ r.layers, p.2 = r.boxes.filter (fun b => b.layer == p.1)) ∧
    (∀ b ∈ r.boxes, b.layer ∈ r.layers.map Prod.fst) ∧
    r.boxes.length = (r.layers.map (fun p => p.2.length)).sum := by
  obtain ⟨lines, st, _, hst, hr⟩ := parse_ok_elim fs path r h
  have hinit : LayersInv initState.boxes initState.layers := by
    refine ⟨by simp [initState], by simp [initState], by simp [initState], by simp [initState]⟩
  have := processLines_layersInv lines initState st hinit hst
  rw [hr]
  exact this

/-- Witness for C1 on the sample file. -/
theorem layers_partition_boxes_witness :
    parse fsSample "d/test_tops.txt".data = .ok resSample ∧
    ((resSample.layers.map Prod.fst).Nodup ∧
     (∀ p ∈ resSample.layers, p.2 = resSample.boxes.filter (fun b => b.layer == p.1)) ∧
     (∀ b ∈ resSample.boxes, b.layer ∈ resSample.layers.map Prod.fst) ∧
     resSample.boxes.length = (resSample.layers.map (fun p => p.2.length)).sum) :=
  ⟨by with_unfolding_all decide,
   layers_partition_boxes fsSample "d/test_tops.txt".data resSample
     (by with_unfolding_all decide)⟩

theorem parseBoxLine_eq_none (l : Str)
    (h : (boxParts l).length < 5 ∨
      pyInt ((boxParts l).getD 0 []) = none ∨
      pyFloat ((boxParts l).getD 1 []) = none ∨
      pyFloat ((boxParts l).getD 2 []) = none ∨
      pyFloat ((boxParts l).getD 3 []) = none ∨
      pyInt ((boxParts l).getD 4 []) = none) :
    parseBoxLine l = none := by
  unfold parseBoxLine
  by_cases hl : 5 ≤ (boxParts l).length
  · rw [if_pos hl]
    rcases h with h | h | h | h | h | h
    · omega
    · rw [h]; rfl
    · rw [h]
      cases pyInt ((boxParts l).getD 0 []) <;> rfl
    · rw [h]
      cases pyInt ((boxParts l).getD 0 []) <;>
        cases pyFloat ((boxParts l).getD 1 []) <;> rfl
    · rw [h]
      cases pyInt ((boxParts l).getD 0 []) <;>
        cases pyFloat ((boxParts l).getD 1 []) <;>
        cases pyFloat ((boxParts l).getD 2 []) <;> rfl
    · rw [h]
      cases pyInt ((boxParts l).getD 0 []) <;>
        cases pyFloat ((boxParts l).getD 1 []) <;>
        cases pyFloat ((boxParts l).getD 2 []) <;>
        cases pyFloat ((boxParts l).getD 3 []) <;> rfl
  · rw [if_neg hl]

/-- C2. A line classified as a box record (non-blank, no metadata tag) that
has fewer than 5 comma-separated fields or a non-numeric field among the
first five does not abort the parse: the state is unchanged and the rest of
the file is processed exactly as if the line were absent. -/
theorem bad_box_line_skipped (raw : Str) (st : PState) (rest : List Str)
    (hne : pyStrip raw ≠ [])
    (hship : startsWith tagShip (pyStrip raw) = false)
    (hpal : startsWith tagPal (pyStrip raw) = false)
    (hbad : (boxParts (pyStrip raw)).length < 5 ∨
      pyInt ((boxParts (pyStrip raw)).getD 0 []) = none ∨
      pyFloat ((boxParts (pyStrip raw)).getD 1 []) = none ∨
      pyFloat ((boxParts (pyStrip raw)).getD 2 []) = none ∨
      pyFloat ((boxParts (pyStrip raw)).getD 3 []) = none ∨
      pyInt ((boxParts (pyStrip raw)).getD 4 []) = none) :
    processLine st raw = .ok st ∧
    processLines st (raw :: rest) = processLines st rest := by
  have hnone := parseBoxLine_eq_none (pyStrip raw) hbad
  have hstep : processLine st raw = .ok st := by
    unfold processLine
    rw [if_neg hne, if_neg (by simp [hship]), if_neg (by simp [hpal]), hnone]
  refine ⟨hstep, ?_⟩
  simp only [processLines, hstep]

/-- Witness for C2: the spec's example line `1,abc,-19.8750,5.6250,0,`
is skipped and parsing continues. -/
theorem bad_box_line_skipped_witness :
    ("1,abc,-19.8750,5.6250,0,".data |> fun raw =>
      processLine initState raw = .ok initState ∧
      processLines initState (raw :: ["2,0,0,0,1,".data]) =
        processLines initState ["2,0,0,0,1,".data]) :=
  bad_box_line_skipped "1,abc,-19.8750,5.6250,0,".data initState
    ["2,0,0,0,1,".data] (by decide) (by decide) (by decide)
    (by right; right; left; decide)

theorem bind_ok_elim {ε α β : Type} {x : Except ε α} {f : α → Except ε β}
    {b : β} (h : Except.bind x f = .ok b) : ∃ a, x = .ok a ∧ f a = .ok b := by
  cases x with
  | error e => exact absurd h (by simp [Except.bind])
  | ok a => exact ⟨a, rfl, h⟩

theorem getPart_ok_lt {parts : List Str} {i : Nat} {s : Str}
    (h : getPart parts i = .ok s) : i < parts.length := by
  unfold getPart at h
  split at h
  · assumption
  · exact absurd h (by simp)

theorem ship_ok_length {l : Str} {r : ShipCaseRec}
    (h : parseShipCaseLine l = .ok r) : 6 ≤ (metaParts l).length := by
  unfold parseShipCaseLine at h
  obtain ⟨p1, g1, h⟩ := bind_ok_elim h
  obtain ⟨p2, g2, h⟩ := bind_ok_elim h
  obtain ⟨p3, g3, h⟩ := bind_ok_elim h
  obtain ⟨l3, g4, h⟩ := bind_ok_elim h
  obtain ⟨p4, g5, h⟩ := bind_ok_elim h
  obtain ⟨w4, g6, h⟩ := bind_ok_elim h
  obtain ⟨p5, g7, h⟩ := bind_ok_elim h
  have := getPart_ok_lt g7
  omega

theorem pallet_ok_length {l : Str} {r : PalletRec}
    (h : parsePalletLine l = .ok r) : 5 ≤ (metaParts l).length := by
  unfold parsePalletLine at h
  obtain ⟨p1, g1, h⟩ := bind_ok_elim h
  obtain ⟨p2, g2, h⟩ := bind_ok_elim h
  obtain ⟨l2, g3, h⟩ := bind_ok_elim h
  obtain ⟨p3, g4, h⟩ := bind_ok_elim h
  obtain ⟨w3, g5, h⟩ := bind_ok_elim h
  obtain ⟨p4, g6, h⟩ := bind_ok_elim h
  have := getPart_ok_lt g6
  omega

theorem startsWith_cons_ne_nil {c : Char} {cs l : Str}
    (h : startsWith (c :: cs) l = true) : l ≠ [] := by
  cases l with
  | nil => exact absurd h (by simp [startsWith])
  | cons a t => simp

theorem pal_not_ship {l : Str} (h : startsWith tagPal l = true) :
    startsWith tagShip l = false := by
  cases l with
  | nil => exact absurd h (by simp [startsWith, tagPal])
  | cons a t =>
    cases t with
    | nil => exact absurd h (by simp [startsWith, tagPal])
    | cons b t2 =>
      simp only [tagPal, startsWith, Bool.and_eq_true, decide_eq_true_eq] at h
      simp only [tagShip, startsWith, Bool.and_eq_false_iff]
      right; left
      have hb : 'P' = b := h.2.1
      rw [← hb]
      decide

/-- C3. A `[Ship Case]` line with fewer than 6 comma-separated fields after
bracket stripping, or a `[Pallet]` line with fewer than 5, aborts the whole
parse with a propagating error: the remaining lines are never processed. -/
theorem short_metadata_line_fatal (raw : Str) (st : PState) (rest : List Str) :
    (startsWith tagShip (pyStrip raw) = true →
      (metaParts (pyStrip raw)).length < 6 →
      ∃ e, processLines st (raw :: rest) = .error e) ∧
    (startsWith tagPal (pyStrip raw) = true →
      (metaParts (pyStrip raw)).length < 5 →
      ∃ e, processLines st (raw :: rest) = .error e) := by
  constructor
  · intro hship hlen
    have hne : pyStrip raw ≠ [] := by
      rw [tagShip] at hship
      exact startsWith_cons_ne_nil hship
    cases hx : parseShipCaseLine (pyStrip raw) with
    | ok r => exact absurd (ship_ok_length hx) (by omega)
    | error e =>
      refine ⟨e, ?_⟩
      have hstep : processLine st raw = .error e := by
        unfold processLine
        rw [if_neg hne, if_pos hship, hx]
      simp only [processLines, hstep]
  · intro hpal hlen
    have hne : pyStrip raw ≠ [] := by
      rw [tagPal] at hpal
      exact startsWith_cons_ne_nil hpal
    have hship := pal_not_ship hpal
    cases hx : parsePalletLine (pyStrip raw) with
    | ok r => exact absurd (pallet_ok_length hx) (by omega)
    | error e =>
      refine ⟨e, ?_⟩
      have hstep : processLine st raw = .error e := by
        unfold processLine
        rw [if_neg hne, if_neg (by simp [hship]), if_pos hpal, hx]
      simp only [processLines, hstep]

/-- Witness for C3: a truncated `[Ship Case]` line and a truncated
`[Pallet]` line each abort the parse. -/
theorem short_metadata_line_fatal_witness :
    (∃ e, processLines initState ("[Ship Case],\"n\"".data :: ["1,0,0,0,0,".data]) = .error e) ∧
    (∃ e, processLines initState ("[Pallet],\"n\",1".data :: ["1,0,0,0,0,".data]) = .error e) :=
  ⟨(short_metadata_line_fatal "[Ship Case],\"n\"".data initState
      ["1,0,0,0,0,".data]).1 (by decide) (by decide),
   (short_metadata_line_fatal "[Pallet],\"n\",1".data initState
      ["1,0,0,0,0,".data]).2 (by decide) (by decide)⟩

theorem getPart_ok_of_lt {parts : List Str} {i : Nat} (h : i < parts.length) :
    getPart parts i = .ok (parts.getD i []) := by
  unfold getPart
  rw [dif_pos h]
  congr 1
  exact (List.getD_eq_getElem parts [] h).symm

theorem toFloatE_of_none {s : Str} (h : pyFloat s = none) :
    toFloatE s = .error .valueError := by
  unfold toFloatE
  rw [h]

theorem toFloatE_of_some {s : Str} {q : ℚ} (h : pyFloat s = some q) :
    toFloatE s = .ok q := by
  unfold toFloatE
  rw [h]

theorem ship_conversion_fatal {l : Str} (hlen : 6 ≤ (metaParts l).length)
    (hbad : pyFloat ((metaParts l).getD 3 []) = none ∨
      pyFloat ((metaParts l).getD 4 []) = none ∨
      pyFloat ((metaParts l).getD 5 []) = none) :
    parseShipCaseLine l = .error .valueError := by
  unfold parseShipCaseLine
  rw [getPart_ok_of_lt (by omega : 1 < (metaParts l).length), except_bind_ok,
      getPart_ok_of_lt (by omega : 2 < (metaParts l).length), except_bind_ok,
      getPart_ok_of_lt (by omega : 3 < (metaParts l).length), except_bind_ok]
  cases hf3 : pyFloat ((metaParts l).getD 3 []) with
  | none => rw [toFloatE_of_none hf3]; rfl
  | some q3 =>
    rw [toFloatE_of_some hf3, except_bind_ok,
        getPart_ok_of_lt (by omega : 4 < (metaParts l).length), except_bind_ok]
    cases hf4 : pyFloat ((metaParts l).getD 4 []) with
    | none => rw [toFloatE_of_none hf4]; rfl
    | some q4 =>
      rw [toFloatE_of_some hf4, except_bind_ok,
          getPart_ok_of_lt (by omega : 5 < (metaParts l).length), except_bind_ok]
      cases hf5 : pyFloat ((metaParts l).getD 5 []) with
      | none => rw [toFloatE_of_none hf5]; rfl
      | some q5 =>
        exact absurd hbad (by
          intro hb
          rcases hb with h | h | h
          · rw [hf3] at h; exact Option.noConfusion h
          · rw [hf4] at h; exact Option.noConfusion h
          · rw [hf5] at h; exact Option.noConfusion h)

theorem pallet_conversion_fatal {l : Str} (hlen : 5 ≤ (metaParts l).length)
    (hbad : pyFloat ((metaParts l).getD 2 []) = none ∨
      pyFloat ((metaParts l).getD 3 []) = none ∨
      pyFloat ((metaParts l).getD 4 []) = none) :
    parsePalletLine l = .error .valueError := by
  unfold parsePalletLine
  rw [getPart_ok_of_lt (by omega : 1 < (metaParts l).length), except_bind_ok,
      getPart_ok_of_lt (by omega : 2 < (metaParts l).length), except_bind_ok]
  cases hf2 : pyFloat ((metaParts l).getD 2 []) with
  | none => rw [toFloatE_of_none hf2]; rfl
  | some q2 =>
    rw [toFloatE_of_some hf2, except_bind_ok,
        getPart_ok_of_lt (by omega : 3 < (metaParts l).length), except_bind_ok]
    cases hf3 : pyFloat ((metaParts l).getD 3 []) with
    | none => rw [toFloatE_of_none hf3]; rfl
    | some q3 =>
      rw [toFloatE_of_some hf3, except_bind_ok,
          getPart_ok_of_lt (by omega : 4 < (metaParts l).length), except_bind_ok]
      cases hf4 : pyFloat ((metaParts l).getD 4 []) with
      | none => rw [toFloatE_of_none hf4]; rfl
      | some q4 =>
        exact absurd hbad (by
          intro hb
          rcases hb with h | h | h
          · rw [hf2] at h; exact Option.noConfusion h
          · rw [hf3] at h; exact Option.noConfusion h
          · rw [hf4] at h; exact Option.noConfusion h)

/-- C9. A metadata line whose required dimension fields are present but not
parseable as numbers aborts the whole parse with the propagating conversion
error — no per-line recovery applies to metadata lines. -/
theorem metadata_conversion_fatal (raw : Str) (st : PState) (rest : List Str) :
    (startsWith tagShip (pyStrip raw) = true →
      6 ≤ (metaParts (pyStrip raw)).length →
      (pyFloat ((metaParts (pyStrip raw)).getD 3 []) = none ∨
       pyFloat ((metaParts (pyStrip raw)).getD 4 []) = none ∨
       pyFloat ((metaParts (pyStrip raw)).getD 5 []) = none) →
      processLines st (raw :: rest) = .error .valueError) ∧
    (startsWith tagPal (pyStrip raw) = true →
      5 ≤ (metaParts (pyStrip raw)).length →
      (pyFloat ((metaParts (pyStrip raw)).getD 2 []) = none ∨
       pyFloat ((metaParts (pyStrip raw)).getD 3 []) = none ∨
       pyFloat ((metaParts (pyStrip raw)).getD 4 []) = none) →
      processLines st (raw :: rest) = .error .valueError) := by
  constructor
  · intro hship hlen hbad
    have hne : pyStrip raw ≠ [] := by
      rw [tagShip] at hship
      exact startsWith_cons_ne_nil hship
    have hstep : processLine st raw = .error .valueError := by
      unfold processLine
      rw [if_neg hne, if_pos hship, ship_conversion_fatal hlen hbad]
    simp only [processLines, hstep]
  · intro hpal hlen hbad
    have hne : pyStrip raw ≠ [] := by
      rw [tagPal] at hpal
      exact startsWith_cons_ne_nil hpal
    have hship := pal_not_ship hpal
    have hstep : processLine st raw = .error .valueError := by
      unfold processLine
      rw [if_neg hne, if_neg (by simp [hship]), if_pos hpal,
          pallet_conversion_fatal hlen hbad]
    simp only [processLines, hstep]

/-- Witness for C9: `[Ship Case]` and `[Pallet]` lines with a non-numeric
dimension field each abort the parse with the conversion error. -/
theorem metadata_conversion_fatal_witness :
    processLines initState
      ("[Ship Case],\"n\",\"s\",abc,2,3".data :: ["1,0,0,0,0,".data]) =
      .error .valueError ∧
    processLines initState
      ("[Pallet],\"n\",1,xy,3".data :: ["1,0,0,0,0,".data]) =
      .error .valueError :=
  ⟨(metadata_conversion_fatal "[Ship Case],\"n\",\"s\",abc,2,3".data initState
      ["1,0,0,0,0,".data]).1 (by decide) (by decide) (by left; decide),
   (metadata_conversion_fatal "[Pallet],\"n\",1,xy,3".data initState
      ["1,0,0,0,0,".data]).2 (by decide) (by decide) (by right; left; decide)⟩

/-- Every box in the final state was already present or was produced by
`parseBoxLine` on some stripped input line. -/
theorem processLines_boxes_src (lines : List Str) :
    ∀ st st', processLines st lines = .ok st' →
      ∀ b ∈ st'.boxes, b ∈ st.boxes ∨ ∃ l ∈ lines, parseBoxLine (pyStrip l) = some b := by
  induction lines with
  | nil =>
    intro st st' h b hb
    simp only [processLines] at h
    cases h
    exact Or.inl hb
  | cons raw rest ih =>
    intro st st' h b hb
    simp only [processLines] at h
    split at h
    · exact absurd h (by simp)
    · next st₁ hstep =>
      rcases ih st₁ st' h b hb with hb1 | ⟨l, hl, hpl⟩
      · rcases processLine_ok_cases st st₁ raw hstep with ⟨hbx, _⟩ | ⟨b', hpb, hbx, _, _⟩
        · rw [hbx] at hb1
          exact Or.inl hb1
        · rw [hbx] at hb1
          rcases List.mem_append.mp hb1 with h1 | h1
          · exact Or.inl h1
          · simp only [List.mem_singleton] at h1
            exact Or.inr ⟨raw, List.mem_cons_self _ _, h1 ▸ hpb⟩
      · exact Or.inr ⟨l, List.mem_cons_of_mem _ hl, hpl⟩

/-- Counterexample to C4: the parser accepts a box line with layer `0` and
orientation `7` — it performs no range validation. -/
theorem box_fields_counterexample :
    parse fsRange "d/range.txt".data = .ok resRange ∧
    (⟨0, 1, 2, 3, 7⟩ : Box) ∈ resRange.boxes ∧
    ¬(1 ≤ (⟨0, 1, 2, 3, 7⟩ : Box).layer ∧
      ((⟨0, 1, 2, 3, 7⟩ : Box).orientation = 0 ∨
       (⟨0, 1, 2, 3, 7⟩ : Box).orientation = 1)) := by
  exact ⟨by with_unfolding_all decide, by with_unfolding_all decide, by decide⟩

/-- C4 as amended: the parser itself never checks ranges, so `layer ≥ 1`
and `orientation ∈ {0, 1}` hold for all returned boxes exactly when every
box line of the input satisfies them. -/
theorem box_fields_in_range (fs : FS) (path : Str) (lines : List Str)
    (r : ParseResult) (hfs : fs path = some lines)
    (h : parse fs path = .ok r) (hin : ∀ l ∈ lines, boxLineOk l = true) :
    ∀ b ∈ r.boxes, 1 ≤ b.layer ∧ (b.orientation = 0 ∨ b.orientation = 1) := by
  obtain ⟨lines2, st, hfs2, hst, hr⟩ := parse_ok_elim fs path r h
  rw [hfs] at hfs2
  injection hfs2 with heq
  subst heq
  intro b hb
  rw [hr] at hb
  rcases processLines_boxes_src lines initState st hst b hb with hb0 | ⟨l, hl, hpl⟩
  · exact absurd hb0 (by simp [initState])
  · have := hin l hl
    unfold boxLineOk at this
    rw [hpl] at this
    simp only [Bool.and_eq_true, Bool.or_eq_true, decide_eq_true_eq] at this
    exact this

/-- Witness for the amended C4 on the sample file. -/
theorem box_fields_in_range_witness :
    parse fsSample "d/test_tops.txt".data = .ok resSample ∧
    ∀ b ∈ resSample.boxes, 1 ≤ b.layer ∧ (b.orientation = 0 ∨ b.orientation = 1) :=
  ⟨by with_unfolding_all decide,
   box_fields_in_range fsSample "d/test_tops.txt".data linesSample resSample
     (by with_unfolding_all decide) (by with_unfolding_all decide)
     (by with_unfolding_all decide)⟩

/-- Counterexample to C7: on a line with a leading comma, the fields
predicted by "trim one trailing comma, then split" differ from the fields
the code consumes (`strip(",")` removes leading commas too), and the two
procedures even disagree on whether the line yields a box. -/
theorem box_fields_split_counterexample :
    claimBoxParts ",1,2,3,4,0".data ≠ boxParts ",1,2,3,4,0".data ∧
    claimParseBoxLine ",1,2,3,4,0".data = none ∧
    parseBoxLine ",1,2,3,4,0".data = some ⟨1, 2, 3, 4, 0⟩ := by
  refine ⟨by decide, by with_unfolding_all decide, by with_unfolding_all decide⟩

/-- C7 as amended: the fields consumed are those of
`line.strip(",").split(",")` (all leading and trailing commas removed), and
fields at index 5 and beyond never affect the parsed box or acceptance:
two lines agreeing on their first five fields (both having at least five)
parse identically. -/
theorem box_fields_first_five (l l' : Str)
    (htake : (boxParts l).take 5 = (boxParts l').take 5)
    (hl : 5 ≤ (boxParts l).length) (hl' : 5 ≤ (boxParts l').length) :
    parseBoxLine l = parseBoxLine l' := by
  have hgd : ∀ i, i < 5 → (boxParts l).getD i [] = (boxParts l').getD i [] := by
    intro i hi
    have hq := congrArg (fun t => t[i]?) htake
    simp only [List.getElem?_take, if_pos hi] at hq
    rw [List.getD_eq_getElem?_getD, List.getD_eq_getElem?_getD, hq]
  unfold parseBoxLine
  rw [if_pos hl, if_pos hl', hgd 0 (by omega), hgd 1 (by omega),
      hgd 2 (by omega), hgd 3 (by omega), hgd 4 (by omega)]

/-- Witness for the amended C7: extra trailing fields are ignored. -/
theorem box_fields_first_five_witness :
    (boxParts "1,2,3,4,0,".data).take 5 = (boxParts "1,2,3,4,0,77,88".data).take 5 ∧
    parseBoxLine "1,2,3,4,0,".data = parseBoxLine "1,2,3,4,0,77,88".data :=
  ⟨by decide,
   box_fields_first_five "1,2,3,4,0,".data "1,2,3,4,0,77,88".data
     (by decide) (by decide) (by decide)⟩

theorem headD_splitOnChar_takeWhile (c : Char) (s : Str) :
    (splitOnChar c s).headD [] = s.takeWhile (fun a => a != c) := by
  induction s with
  | nil => rfl
  | cons a t ih =>
    simp only [splitOnChar, List.takeWhile_cons]
    by_cases hac : a = c
    · rw [if_pos hac]
      simp [hac]
    · rw [if_neg hac]
      cases hr : splitOnChar c t with
      | nil => exact absurd hr (splitOnChar_ne_nil c t)
      | cons hd tl =>
        have hhd : hd = t.takeWhile (fun a => a != c) := by
          rw [← ih, hr]
          rfl
        simp only [List.headD_cons]
        rw [if_pos (by simp [hac]), hhd]

theorem parse_pallet_id {fs : FS} {path : Str} {r : ParseResult}
    (h : parse fs path = .ok r) : r.pallet_id = palletId path := by
  obtain ⟨lines, st, _, _, hr⟩ := parse_ok_elim fs path r h
  rw [hr]

/-- C5. The `pallet_id` of every returned result is the file's base name
with everything from the first `.` onward removed; in particular a path
whose base name is `test_tops.txt` yields `"test_tops"`. -/
theorem pallet_id_from_basename (fs : FS) (path : Str) (r : ParseResult)
    (h : parse fs path = .ok r) :
    r.pallet_id = specPalletId path ∧
    (basename path = "test_tops.txt".data → r.pallet_id = "test_tops".data) := by
  have hp : r.pallet_id = palletId path := parse_pallet_id h
  constructor
  · rw [hp]
    unfold palletId specPalletId
    exact headD_splitOnChar_takeWhile '.' (basename path)
  · intro hb
    rw [hp]
    unfold palletId
    rw [hb]
    decide

/-- Witness for C5 on the sample file at path `d/test_tops.txt`. -/
theorem pallet_id_from_basename_witness :
    resSample.pallet_id = specPalletId "d/test_tops.txt".data ∧
    (basename "d/test_tops.txt".data = "test_tops.txt".data →
      resSample.pallet_id = "test_tops".data) :=
  pallet_id_from_basename fsSample "d/test_tops.txt".data resSample
    (by with_unfolding_all decide)

theorem bind_error_elim {ε α β : Type} {x : Except ε α} {f : α → Except ε β}
    {e : ε} (h : Except.bind x f = .error e) :
    x = .error e ∨ ∃ a, x = .ok a ∧ f a = .error e := by
  cases x with
  | error e' =>
    left
    have : e' = e := by
      have hx : Except.bind (Except.error e' : Except ε α) f = .error e' := rfl
      rw [hx] at h
      exact (Except.error.inj h)
    rw [this]
  | ok a => exact Or.inr ⟨a, rfl, h⟩

theorem getPart_error_kind {parts : List Str} {i : Nat} {e : Err}
    (h : getPart parts i = .error e) : e = .indexError := by
  unfold getPart at h
  split at h
  · exact absurd h (by simp)
  · exact (Except.error.inj h).symm

theorem toFloatE_error_kind {s : Str} {e : Err}
    (h : toFloatE s = .error e) : e = .valueError := by
  unfold toFloatE at h
  split at h
  · exact absurd h (by simp)
  · exact (Except.error.inj h).symm

theorem ship_error_kind {l : Str} {e : Err}
    (h : parseShipCaseLine l = .error e) : e = .indexError ∨ e = .valueError := by
  unfold parseShipCaseLine at h
  rcases bind_error_elim h with h | ⟨p1, _, h⟩
  · exact Or.inl (getPart_error_kind h)
  rcases bind_error_elim h with h | ⟨p2, _, h⟩
  · exact Or.inl (getPart_error_kind h)
  rcases bind_error_elim h with h | ⟨p3, _, h⟩
  · exact Or.inl (getPart_error_kind h)
  rcases bind_error_elim h with h | ⟨q3, _, h⟩
  · exact Or.inr (toFloatE_error_kind h)
  rcases bind_error_elim h with h | ⟨p4, _, h⟩
  · exact Or.inl (getPart_error_kind h)
  rcases bind_error_elim h with h | ⟨q4, _, h⟩
  · exact Or.inr (toFloatE_error_kind h)
  rcases bind_error_elim h with h | ⟨p5, _, h⟩
  · exact Or.inl (getPart_error_kind h)
  rcases bind_error_elim h with h | ⟨q5, _, h⟩
  · exact Or.inr (toFloatE_error_kind h)
  · exact absurd h (by simp)

theorem pallet_error_kind {l : Str} {e : Err}
    (h : parsePalletLine l = .error e) : e = .indexError ∨ e = .valueError := by
  unfold parsePalletLine at h
  rcases bind_error_elim h with h | ⟨p1, _, h⟩
  · exact Or.inl (getPart_error_kind h)
  rcases bind_error_elim h with h | ⟨p2, _, h⟩
  · exact Or.inl (getPart_error_kind h)
  rcases bind_error_elim h with h | ⟨q2, _, h⟩
  · exact Or.inr (toFloatE_error_kind h)
  rcases bind_error_elim h with h | ⟨p3, _, h⟩
  · exact Or.inl (getPart_error_kind h)
  rcases bind_error_elim h with h | ⟨q3, _, h⟩
  · exact Or.inr (toFloatE_error_kind h)
  rcases bind_error_elim h with h | ⟨p4, _, h⟩
  · exact Or.inl (getPart_error_kind h)
  rcases bind_error_elim h with h | ⟨q4, _, h⟩
  · exact Or.inr (toFloatE_error_kind h)
  · exact absurd h (by simp)

/-- A loop iteration can only fail on a line carrying one of the two
metadata tags, and the error is never `fileNotFound`. -/
theorem processLine_error_shape {st : PState} {raw : Str} {e : Err}
    (h : processLine st raw = .error e) :
    (startsWith tagShip (pyStrip raw) = true ∨
     startsWith tagPal (pyStrip raw) = true) ∧
    (e = .indexError ∨ e = .valueError) := by
  unfold processLine at h
  split at h
  · exact absurd h (by simp)
  · split at h
    · next hship =>
      split at h
      · next e' hx =>
        have : e' = e := Except.error.inj h
        exact ⟨Or.inl hship, this ▸ ship_error_kind hx⟩
      · exact absurd h (by simp)
    · split at h
      · next hpal =>
        split at h
        · next e' hx =>
          have : e' = e := Except.error.inj h
          exact ⟨Or.inr hpal, this ▸ pallet_error_kind hx⟩
        · exact absurd h (by simp)
      · split at h
        · exact absurd h (by simp)
        · exact absurd h (by simp)

theorem processLines_error_src (lines : List Str) :
    ∀ st e, processLines st lines = .error e →
      ∃ raw ∈ lines, ∃ st₀, processLine st₀ raw = .error e := by
  induction lines with
  | nil =>
    intro st e h
    exact absurd h (by simp [processLines])
  | cons raw rest ih =>
    intro st e h
    simp only [processLines] at h
    split at h
    · next e' hstep =>
      have : e' = e := Except.error.inj h
      exact ⟨raw, List.mem_cons_self _ _, st, this ▸ hstep⟩
    · next st₁ hstep =>
      obtain ⟨raw2, hraw2, st₀, hst₀⟩ := ih st₁ e h
      exact ⟨raw2, List.mem_cons_of_mem _ hraw2, st₀, hst₀⟩

/-- C8. A nonexistent path fails with `FileNotFound` and yields no result;
and apart from this, the only way `parse` can fail is a metadata-tagged
line (whose error is never `FileNotFound`). -/
theorem missing_file_fatal (fs : FS) (path : Str) :
    (fs path = none → parse fs path = .error .fileNotFound) ∧
    (∀ e, parse fs path = .error e →
      (fs path = none ∧ e = .fileNotFound) ∨
      (∃ lines, fs path = some lines ∧ ∃ raw ∈ lines,
        (startsWith tagShip (pyStrip raw) = true ∨
         startsWith tagPal (pyStrip raw) = true) ∧
        e ≠ .fileNotFound)) := by
  constructor
  · intro h
    unfold parse
    rw [h]
  · intro e h
    unfold parse at h
    cases hfs : fs path with
    | none =>
      rw [hfs] at h
      exact Or.inl ⟨rfl, (Except.error.inj h).symm⟩
    | some lines =>
      rw [hfs] at h
      dsimp only at h
      right
      cases hpl : processLines initState lines with
      | ok st =>
        rw [hpl] at h
        exact absurd h (by simp)
      | error e' =>
        rw [hpl] at h
        have he : e' = e := Except.error.inj h
        subst he
        obtain ⟨raw, hraw, st₀, hst₀⟩ := processLines_error_src lines initState e' hpl
        obtain ⟨htag, hkind⟩ := processLine_error_shape hst₀
        refine ⟨lines, rfl, raw, hraw, htag, ?_⟩
        rcases hkind with h | h <;> simp [h]

/-- Witness for C8: parsing against an empty filesystem fails with
`fileNotFound`. -/
theorem missing_file_fatal_witness :
    parse (fun _ => none) "a/missing.txt".data = .error .fileNotFound :=
  (missing_file_fatal (fun _ => none) "a/missing.txt".data).1 rfl

theorem lookupKey_dictSet_self (m : List (Str × MetaVal)) (k : Str) (v : MetaVal) :
    lookupKey (dictSet m k v) k = some v := by
  induction m with
  | nil => simp [dictSet, lookupKey]
  | cons p t ih =>
    obtain ⟨k', v'⟩ := p
    by_cases h : k' = k
    · simp [dictSet, h, lookupKey]
    · simp only [dictSet]
      rw [if_neg h]
      simp only [lookupKey]
      rw [if_neg h]
      exact ih

theorem lookupKey_dictSet_ne (m : List (Str × MetaVal)) (k : Str) (v : MetaVal)
    (k₂ : Str) (h : k ≠ k₂) :
    lookupKey (dictSet m k v) k₂ = lookupKey m k₂ := by
  induction m with
  | nil =>
    simp only [dictSet, lookupKey]
    rw [if_neg h]
  | cons p t ih =>
    obtain ⟨k', v'⟩ := p
    by_cases hk : k' = k
    · simp only [dictSet]
      rw [if_pos hk]
      simp only [lookupKey]
      rw [if_neg h, if_neg (hk ▸ h)]
    · simp only [dictSet]
      rw [if_neg hk]
      simp only [lookupKey]
      by_cases h2 : k' = k₂
      · rw [if_pos h2, if_pos h2]
      · rw [if_neg h2, if_neg h2]
        exact ih

theorem dictSet_keys_of_mem (m : List (Str × MetaVal)) (k : Str) (v : MetaVal)
    (h : k ∈ m.map Prod.fst) :
    (dictSet m k v).map Prod.fst = m.map Prod.fst := by
  induction m with
  | nil => simp at h
  | cons p t ih =>
    obtain ⟨k', v'⟩ := p
    by_cases hk : k' = k
    · simp [dictSet, hk]
    · simp only [dictSet]
      rw [if_neg hk]
      simp only [List.map_cons] at h ⊢
      rcases List.mem_cons.mp h with h1 | h1
      · exact absurd h1.symm hk
      · rw [ih h1]

theorem shipLines_cons_pos (raw : Str) (rest : List Str)
    (h : startsWith tagShip (pyStrip raw) = true) :
    shipLines (raw :: rest) = pyStrip raw :: shipLines rest := by
  simp [shipLines, List.filterMap_cons, h]

theorem shipLines_cons_neg (raw : Str) (rest : List Str)
    (h : startsWith tagShip (pyStrip raw) = false) :
    shipLines (raw :: rest) = shipLines rest := by
  simp [shipLines, List.filterMap_cons, h]

theorem palLines_cons_pos (raw : Str) (rest : List Str)
    (hs : startsWith tagShip (pyStrip raw) = false)
    (h : startsWith tagPal (pyStrip raw) = true) :
    palLines (raw :: rest) = pyStrip raw :: palLines rest := by
  simp [palLines, List.filterMap_cons, hs, h]

theorem palLines_cons_ship (raw : Str) (rest : List Str)
    (hs : startsWith tagShip (pyStrip raw) = true) :
    palLines (raw :: rest) = palLines rest := by
  simp [palLines, List.filterMap_cons, hs]

theorem palLines_cons_neg (raw : Str) (rest : List Str)
    (hs : startsWith tagShip (pyStrip raw) = false)
    (h : startsWith tagPal (pyStrip raw) = false) :
    palLines (raw :: rest) = palLines rest := by
  simp [palLines, List.filterMap_cons, hs, h]

theorem processLine_meta_shape {st st' : PState} {raw : Str}
    (h : processLine st raw = .ok st') :
    st'.metadata = st.metadata ∨
    (∃ r, st'.metadata = dictSet st.metadata keyShip (.ship r)) ∨
    (∃ r, st'.metadata = dictSet st.metadata keyPal (.pal r)) := by
  unfold processLine at h
  split at h
  · cases h; exact Or.inl rfl
  · split at h
    · split at h
      · exact absurd h (by simp)
      · next r hx =>
        cases h
        exact Or.inr (Or.inl ⟨r, rfl⟩)
    · split at h
      · split at h
        · exact absurd h (by simp)
        · next r hx =>
          cases h
          exact Or.inr (Or.inr ⟨r, rfl⟩)
      · split at h
        · cases h; exact Or.inl rfl
        · cases h; exact Or.inl rfl

theorem processLines_meta_keys (lines : List Str) :
    ∀ st st', processLines st lines = .ok st' →
      st.metadata.map Prod.fst = [keyShip, keyPal] →
      st'.metadata.map Prod.fst = [keyShip, keyPal] := by
  induction lines with
  | nil =>
    intro st st' h hkeys
    simp only [processLines] at h
    cases h
    exact hkeys
  | cons raw rest ih =>
    intro st st' h hkeys
    simp only [processLines] at h
    split at h
    · exact absurd h (by simp)
    · next st₁ hstep =>
      refine ih st₁ st' h ?_
      rcases processLine_meta_shape hstep with hm | ⟨r, hm⟩ | ⟨r, hm⟩
      · rw [hm]; exact hkeys
      · rw [hm, dictSet_keys_of_mem _ _ _ (by rw [hkeys]; decide)]
        exact hkeys
      · rw [hm, dictSet_keys_of_mem _ _ _ (by rw [hkeys]; decide)]
        exact hkeys

/-- The metadata a run of the loop leaves behind: when no tagged line
occurs, the stored value is unchanged; otherwise it is the record parsed
from the last tagged line. -/
theorem processLines_meta (lines : List Str) :
    ∀ st st', processLines st lines = .ok st' →
      ((shipLines lines = [] →
        lookupKey st'.metadata keyShip = lookupKey st.metadata keyShip) ∧
       (∀ l, (shipLines lines).getLast? = some l →
         ∃ rec, parseShipCaseLine l = .ok rec ∧
           lookupKey st'.metadata keyShip = some (.ship rec)) ∧
       (palLines lines = [] →
        lookupKey st'.metadata keyPal = lookupKey st.metadata keyPal) ∧
       (∀ l, (palLines lines).getLast? = some l →
         ∃ rec, parsePalletLine l = .ok rec ∧
           lookupKey st'.metadata keyPal = some (.pal rec))) := by
  induction lines with
  | nil =>
    intro st st' h
    simp only [processLines] at h
    cases h
    refine ⟨fun _ => rfl, ?_, fun _ => rfl, ?_⟩
    · intro l hl
      exact absurd hl (by simp [shipLines])
    · intro l hl
      exact absurd hl (by simp [palLines])
  | cons raw rest ih =>
    intro st st' h
    simp only [processLines] at h
    split at h
    · exact absurd h (by simp)
    · next st₁ hstep =>
      unfold processLine at hstep
      by_cases hblank : pyStrip raw = []
      · rw [if_pos hblank] at hstep
        cases hstep
        have hship0 : startsWith tagShip (pyStrip raw) = false := by
          rw [hblank]; rfl
        have hpal0 : startsWith tagPal (pyStrip raw) = false := by
          rw [hblank]; rfl
        rw [shipLines_cons_neg _ _ hship0, palLines_cons_neg _ _ hship0 hpal0]
        exact ih _ st' h
      · rw [if_neg hblank] at hstep
        by_cases hship : startsWith tagShip (pyStrip raw) = true
        · rw [if_pos hship] at hstep
          split at hstep
          · exact absurd hstep (by simp)
          · next rec hx =>
            cases hstep
            obtain ⟨ih1, ih2, ih3, ih4⟩ := ih _ st' h
            rw [shipLines_cons_pos _ _ hship, palLines_cons_ship _ _ hship]
            refine ⟨?_, ?_, ?_, ?_⟩
            · intro hcon
              exact absurd hcon (by simp)
            · intro l hl
              cases hsr : shipLines rest with
              | nil =>
                rw [hsr] at hl
                simp only [List.getLast?_singleton, Option.some.injEq] at hl
                subst hl
                refine ⟨rec, hx, ?_⟩
                rw [ih1 hsr]
                exact lookupKey_dictSet_self _ _ _
              | cons a tl =>
                rw [hsr, List.getLast?_cons_cons] at hl
                exact ih2 l (by rw [hsr]; exact hl)
            · intro hpl
              rw [ih3 hpl]
              exact lookupKey_dictSet_ne _ _ _ _ (by decide)
            · exact ih4
        · have hship0 : startsWith tagShip (pyStrip raw) = false := by
            revert hship
            cases startsWith tagShip (pyStrip raw) <;> simp
          rw [if_neg hship] at hstep
          by_cases hpal : startsWith tagPal (pyStrip raw) = true
          · rw [if_pos hpal] at hstep
            split at hstep
            · exact absurd hstep (by simp)
            · next rec hx =>
              cases hstep
              obtain ⟨ih1, ih2, ih3, ih4⟩ := ih _ st' h
              rw [shipLines_cons_neg _ _ hship0, palLines_cons_pos _ _ hship0 hpal]
              refine ⟨?_, ?_, ?_, ?_⟩
              · intro hsl
                rw [ih1 hsl]
                exact lookupKey_dictSet_ne _ _ _ _ (by decide)
              · exact ih2
              · intro hcon
                exact absurd hcon (by simp)
              · intro l hl
                cases hpr : palLines rest with
                | nil =>
                  rw [hpr] at hl
                  simp only [List.getLast?_singleton, Option.some.injEq] at hl
                  subst hl
                  refine ⟨rec, hx, ?_⟩
                  rw [ih3 hpr]
                  exact lookupKey_dictSet_self _ _ _
                | cons a tl =>
                  rw [hpr, List.getLast?_cons_cons] at hl
                  exact ih4 l (by rw [hpr]; exact hl)
          · have hpal0 : startsWith tagPal (pyStrip raw) = false := by
              revert hpal
              cases startsWith tagPal (pyStrip raw) <;> simp
            rw [if_neg hpal] at hstep
            rw [shipLines_cons_neg _ _ hship0, palLines_cons_neg _ _ hship0 hpal0]
            split at hstep
            · next b hb =>
              cases hstep
              exact ih ⟨st.metadata, st.boxes ++ [b], layersAdd st.layers b⟩ st' h
            · cases hstep
              exact ih _ st' h

/-- C6. When a file has one or more `[Ship Case]` (resp. `[Pallet]`) lines,
each parsed record overwrites the stored one, so the returned metadata is
the record parsed from the last such line, wherever box lines appear. -/
theorem last_metadata_wins (fs : FS) (path : Str) (lines : List Str)
    (r : ParseResult) (hfs : fs path = some lines)
    (h : parse fs path = .ok r) :
    (∀ l, (shipLines lines).getLast? = some l →
      ∃ rec, parseShipCaseLine l = .ok rec ∧
        lookupKey r.metadata keyShip = some (.ship rec)) ∧
    (∀ l, (palLines lines).getLast? = some l →
      ∃ rec, parsePalletLine l = .ok rec ∧
        lookupKey r.metadata keyPal = some (.pal rec)) := by
  obtain ⟨lines2, st, hfs2, hst, hr⟩ := parse_ok_elim fs path r h
  rw [hfs] at hfs2
  injection hfs2 with heq
  subst heq
  obtain ⟨_, m2, _, m4⟩ := processLines_meta lines initState st hst
  rw [hr]
  exact ⟨m2, m4⟩

/-- Witness for C6 on `linesRepeat`: the second `[Ship Case]` and second
`[Pallet]` lines win. -/
theorem last_metadata_wins_witness :
    (∃ rec, parseShipCaseLine "[Ship Case],\"B\",\"S2\",4,5,6".data = .ok rec ∧
      lookupKey resRepeat.metadata keyShip = some (.ship rec)) ∧
    (∃ rec, parsePalletLine "[Pallet],\"P2\",7,8,9".data = .ok rec ∧
      lookupKey resRepeat.metadata keyPal = some (.pal rec)) :=
  ⟨(last_metadata_wins fsRepeat "d/rep.txt".data linesRepeat resRepeat
      (by with_unfolding_all decide) (by with_unfolding_all decide)).1
      "[Ship Case],\"B\",\"S2\",4,5,6".data (by decide),
   (last_metadata_wins fsRepeat "d/rep.txt".data linesRepeat resRepeat
      (by with_unfolding_all decide) (by with_unfolding_all decide)).2
      "[Pallet],\"P2\",7,8,9".data (by decide)⟩

/-- C10. The `metadata` mapping of every result has exactly the keys
`ship_case` and `pallet`, in that order; a key whose tag never occurs in
the file still maps to the empty record. -/
theorem metadata_keys_and_defaults (fs : FS) (path : Str) (lines : List Str)
    (r : ParseResult) (hfs : fs path = some lines)
    (h : parse fs path = .ok r) :
    r.metadata.map Prod.fst = [keyShip, keyPal] ∧
    (shipLines lines = [] → lookupKey r.metadata keyShip = some .emptyRec) ∧
    (palLines lines = [] → lookupKey r.metadata keyPal = some .emptyRec) := by
  obtain ⟨lines2, st, hfs2, hst, hr⟩ := parse_ok_elim fs path r h
  rw [hfs] at hfs2
  injection hfs2 with heq
  subst heq
  obtain ⟨m1, _, m3, _⟩ := processLines_meta lines initState st hst
  rw [hr]
  refine ⟨processLines_meta_keys lines initState st hst (by decide), ?_, ?_⟩
  · intro hsl
    rw [show (⟨palletId path, st.metadata, st.boxes, st.layers⟩ : ParseResult).metadata
          = st.metadata from rfl, m1 hsl]
    decide
  · intro hpl
    rw [show (⟨palletId path, st.metadata, st.boxes, st.layers⟩ : ParseResult).metadata
          = st.metadata from rfl, m3 hpl]
    decide

/-- Witness for C10 on a file with no metadata tags. -/
theorem metadata_keys_and_defaults_witness :
    resRange.metadata.map Prod.fst = [keyShip, keyPal] ∧
    (shipLines ["0,1.0,2.0,3.0,7,".data] = [] →
      lookupKey resRange.metadata keyShip = some .emptyRec) ∧
    (palLines ["0,1.0,2.0,3.0,7,".data] = [] →
      lookupKey resRange.metadata keyPal = some .emptyRec) :=
  metadata_keys_and_defaults fsRange "d/range.txt".data
    ["0,1.0,2.0,3.0,7,".data] resRange (by with_unfolding_all decide)
    (by with_unfolding_all decide)

end TopsPallet
